import Mathlib

/-!
Verification of the BIND9 network-manager core (netmgr.c and the TLS-DNS
transport) against its natural-language specification.  Every definition
below is a shallow embedding of a concrete C function from the repository;
the theorems settle the spec's claims about those functions.
-/

namespace Netmgr

/-- Result codes used by the embedded fragment of the `isc_result_t`
taxonomy. -/
inductive Result where
  | success
  | nomore
  | canceled
  | eof
  | tlserror
  | timedout
  | empty
  | suspend
  deriving DecidableEq, Repr

/-! ## DNS message framing: `isc__nm_tlsdns_processbuffer`

The reassembly buffer `buf` is the socket's `sock->buf` of `buf_len`
bytes; each byte is a `Nat` below 256 (the `% 256` in `beLen` is the
8-bit memory coercion). -/

/-- State of a TLS-DNS socket as used by the stream-processing loop
(`netmgr.c` / the tlsdns source): the closing predicate
(`isc__nmsocket_closing`, collapsed to one flag), the `client`,
`sequential`, `reading` and `recv_read` flags, the active-handle counter
`ah` (an `int_fast32_t`), a one-bit abstraction of the socket timer, and
the reassembly buffer. -/
structure DnsSock where
  closing : Bool
  client : Bool
  sequential : Bool
  ah : Int
  reading : Bool
  timerArmed : Bool
  recv_read : Bool
  buf : List Nat
  deriving DecidableEq, Repr

/-- The 16-bit big-endian length stored in the first two bytes of the
buffer: `ntohs(*(uint16_t *)sock->buf)`. -/
def beLen (buf : List Nat) : Nat :=
  buf.headD 0 % 256 * 256 + (buf.tail.headD 0) % 256

/-- Outcome of one `processbuffer` call: `canceled`, `nomore`, or a
delivered message.  On success the read callback receives the region
`(payloadOff, payloadLen)` pointing inside the socket's buffer
(`req->uvbuf.base = sock->buf + 2`, `req->uvbuf.len = len`); `payload`
records the bytes the region denotes at that moment. -/
inductive PBOut where
  | canceled
  | nomore
  | success (payloadOff payloadLen : Nat) (payload : List Nat)
  deriving DecidableEq, Repr

/-- Shallow embedding of `isc__nm_tlsdns_processbuffer`: if the socket is
closing return CANCELED; with fewer than 2 buffered bytes return NOMORE;
read the big-endian length `len`; if fewer than `len` bytes follow the
prefix return NOMORE; otherwise hand the `len` payload bytes at offset 2
to the read callback, clear `recv_read`, and shift the remaining bytes
down by `2 + len`. -/
def isc__nm_tlsdns_processbuffer (s : DnsSock) : PBOut × DnsSock :=
  if s.closing then (.canceled, s)
  else if s.buf.length < 2 then (.nomore, s)
  else
    let len := beLen s.buf
    if len > s.buf.length - 2 then (.nomore, s)
    else
      (.success 2 len ((s.buf.drop 2).take len),
       { s with buf := s.buf.drop (2 + len), recv_read := false })

/-- Shallow embedding of `isc__nm_start_reading`: a no-op when already
reading, otherwise start the stream read and set the flag. -/
def isc__nm_start_reading (s : DnsSock) : DnsSock :=
  if s.reading then s else { s with reading := true }

/-- Shallow embedding of `isc__nm_stop_reading`: a no-op when not
reading, otherwise stop the stream read and clear the flag. -/
def isc__nm_stop_reading (s : DnsSock) : DnsSock :=
  if s.reading then { s with reading := false } else s

/-- One-bit abstraction of `isc__nmsocket_timer_start` as used by the
stream-processing loop (the full timer model with due times is
`TimerSock`): the logical timer is armed. -/
def dnsTimerStart (s : DnsSock) : DnsSock :=
  { s with timerArmed := true }

/-- One-bit abstraction of `isc__nmsocket_timer_stop` for the
stream-processing loop: the logical timer is disarmed. -/
def dnsTimerStop (s : DnsSock) : DnsSock :=
  { s with timerArmed := false }

/-- Shallow embedding of `isc__nm_process_sock_buffer` for a TLS-DNS
socket: loop over `processbuffer`.  On NOMORE, start reading and start
the timer when the active-handle count loaded at iteration entry was 1,
then return.  On CANCELED, stop the timer and stop reading.  On SUCCESS,
stop the timer; continue with the next message only if the socket is not
a client, not in sequential mode, and the active-handle count observed
at iteration entry is below the clients-per-connection ceiling `cap`
(`STREAM_CLIENTS_PER_CONN`); otherwise stop reading and return.  The
returned list collects the payloads delivered to the read callback, in
order. -/
def isc__nm_process_sock_buffer (cap : Int) (s : DnsSock) :
    DnsSock × List (List Nat) :=
  let ah := s.ah
  match hpb : isc__nm_tlsdns_processbuffer s with
  | (.nomore, s1) =>
    let s2 := isc__nm_start_reading s1
    if ah = 1 then (dnsTimerStart s2, []) else (s2, [])
  | (.canceled, s1) => (isc__nm_stop_reading (dnsTimerStop s1), [])
  | (.success _ _ payload, s1) =>
    let s2 := dnsTimerStop s1
    if s.client || s.sequential || ah ≥ cap then
      (isc__nm_stop_reading s2, [payload])
    else
      let r := isc__nm_process_sock_buffer cap s2
      (r.1, payload :: r.2)
  termination_by s.buf.length
  decreasing_by
    have h := hpb
    unfold isc__nm_tlsdns_processbuffer at h
    by_cases hcl : s.closing = true
    · simp [hcl] at h
    · by_cases h2 : s.buf.length < 2
      · simp [hcl, h2] at h
      · by_cases h3 : beLen s.buf > s.buf.length - 2
        · simp [hcl, h2, h3] at h
        · simp only [hcl, h2, h3, Bool.false_eq_true, if_false,
            Prod.mk.injEq, PBOut.success.injEq] at h
          obtain ⟨-, hs1⟩ := h
          rw [dnsTimerStop, ← hs1]
          simp only [List.length_drop]
          omega

/-- Shallow embedding of `isc__nm_resume_processing`, the
`closehandle_cb` installed on accepted TLS-DNS sockets: a no-op when the
socket is closing, otherwise re-enter `isc__nm_process_sock_buffer`. -/
def isc__nm_resume_processing (cap : Int) (s : DnsSock) :
    DnsSock × List (List Nat) :=
  if s.closing then (s, [])
  else isc__nm_process_sock_buffer cap s

/-! ## Manager timeouts: `isc_nm_settimeouts` / `isc_nm_gettimeouts` -/

/-- The manager fields touched by the timeout API: the four atomic
`uint32_t` timeout settings `{init, idle, keepalive, advertised}` (in
milliseconds). -/
structure NmMgr where
  init : Nat
  idle : Nat
  keepalive : Nat
  advertised : Nat
  deriving DecidableEq, Repr

/-- Shallow embedding of `isc_nm_settimeouts`: four unconditional atomic
stores. -/
def isc_nm_settimeouts (m : NmMgr) (ini idl keep adv : Nat) : NmMgr :=
  { m with init := ini, idle := idl, keepalive := keep, advertised := adv }

/-- Shallow embedding of `isc_nm_gettimeouts`: each output pointer is
modelled as a `Bool` (`true` = non-NULL); a non-NULL pointer receives the
atomic load of the corresponding field, a NULL pointer is skipped
(`none`). -/
def isc_nm_gettimeouts (m : NmMgr) (pInit pIdle pKeep pAdv : Bool) :
    Option Nat × Option Nat × Option Nat × Option Nat :=
  (if pInit then some m.init else none,
   if pIdle then some m.idle else none,
   if pKeep then some m.keepalive else none,
   if pAdv then some m.advertised else none)

/-! ## Worker event queues: `process_queue` -/

/-- A network event as dispatched by `process_netievent`: `stop` events
(`NETIEVENT_CASE_NOMORE(stop)` / `NETIEVENT_CASE_NOMORE(pause)`) make the
dispatcher return `false`; every other event is processed and dispatch
continues.  The payload `id` distinguishes ordinary events. -/
inductive NEvent where
  | stop
  | normal (id : Nat)
  deriving DecidableEq, Repr

/-- Shallow embedding of `process_netievent`: returns `false` exactly for
the events that tell the dispatcher to stop. -/
def process_netievent (ev : NEvent) : Bool :=
  match ev with
  | .stop => false
  | .normal _ => true

/-- One typed worker queue: the physical item list and the atomic depth
counter `worker->nievents[type]`.  The counter is loosely synchronized:
every item on the queue is accounted for, so `items.length ≤ nievents`,
but the counter may be larger. -/
structure EvQueue where
  items : List NEvent
  nievents : Nat
  deriving DecidableEq, Repr

/-- Result of a `process_queue` invocation. -/
inductive QResult where
  | empty
  | success
  | suspend
  deriving DecidableEq, Repr

/-- The `while (ievent != NULL)` loop of `process_queue`, entered with the
first dequeued event at the head: process the event (returning SUSPEND if
it said to stop), then `if (waiting-- == 0) break` — the post-decrement
compares the current value before decrementing — else dequeue the next.
Returns (processed events in order, remaining queue, result). -/
def process_queue_loop : List NEvent → Nat → List NEvent × List NEvent × QResult
  | [], _ => ([], [], .success)
  | ev :: rest, waiting =>
    if process_netievent ev = false then ([ev], rest, .suspend)
    else if waiting = 0 then ([ev], rest, .success)
    else
      let r := process_queue_loop rest (waiting - 1)
      (ev :: r.1, r.2.1, r.2.2)

/-- Shallow embedding of `process_queue`: snapshot the depth counter into
`waiting`, dequeue once; with nothing dequeued return EMPTY when the
counter was 0 and SUCCESS otherwise ("more coming"); else run the loop.
Each processed event decrements the counter (`DECREMENT_NETIEVENT`). -/
def process_queue (q : EvQueue) : List NEvent × EvQueue × QResult :=
  let waiting := q.nievents
  match q.items with
  | [] => if waiting = 0 then ([], q, .empty) else ([], q, .success)
  | ev :: rest =>
    let r := process_queue_loop (ev :: rest) waiting
    (r.1, { items := r.2.1, nievents := q.nievents - r.1.length }, r.2.2)

/-! ## Socket timers: `isc__nmsocket_timer_start` / `_stop` / `_restart` -/

/-- The socket fields consulted by the timer operations: the `connecting`
flag selecting connect-timeout vs read-timeout mode, the two timeout
settings in ms (0 = disabled), and the libuv timer, modelled as
`some due` when armed with `due` ms remaining and `none` when disarmed. -/
structure TimerSock where
  connecting : Bool
  connect_timeout : Nat
  read_timeout : Nat
  timer : Option Nat
  deriving DecidableEq, Repr

/-- Model of `uv_timer_start(&sock->timer, cb, timeout, 0)`: (re)arms the
timer with the given timeout, replacing any previous due time. -/
def uv_timer_start (s : TimerSock) (timeout : Nat) : TimerSock :=
  { s with timer := some timeout }

/-- Model of `uv_timer_stop(&sock->timer)`: disarms the timer;
idempotent. -/
def uv_timer_stop (s : TimerSock) : TimerSock :=
  { s with timer := none }

/-- Shallow embedding of `isc__nmsocket_timer_restart`: when connecting,
arm at `connect_timeout + 10` ms unless the timeout is 0; otherwise arm
at `read_timeout` ms unless it is 0. -/
def isc__nmsocket_timer_restart (s : TimerSock) : TimerSock :=
  if s.connecting then
    if s.connect_timeout = 0 then s
    else uv_timer_start s (s.connect_timeout + 10)
  else
    if s.read_timeout = 0 then s
    else uv_timer_start s s.read_timeout

/-- Shallow embedding of `isc__nmsocket_timer_running`:
`uv_is_active(&sock->timer)`. -/
def isc__nmsocket_timer_running (s : TimerSock) : Bool :=
  s.timer.isSome

/-- Shallow embedding of `isc__nmsocket_timer_start`: if the timer is
already running, return without touching it; otherwise restart. -/
def isc__nmsocket_timer_start (s : TimerSock) : TimerSock :=
  if isc__nmsocket_timer_running s then s
  else isc__nmsocket_timer_restart s

/-- Shallow embedding of `isc__nmsocket_timer_stop`: unconditionally
`uv_timer_stop`. -/
def isc__nmsocket_timer_stop (s : TimerSock) : TimerSock :=
  uv_timer_stop s

/-! ## Active-handle table and handle lifecycle -/

/-- The active-handle table of a socket: the dense array `ah_handles`
(slot → handle, modelled as `Option` of a handle id), the free-slot
stack `ah_frees`, the array size `ah_size`, and the atomic claimed-slot
counter `ah`.  `ah_frees[ah..ah_size)` is the stack of free slots with
the top at index `ah`. -/
structure AHTable where
  ah_size : Nat
  ah_handles : List (Option Nat)
  ah_frees : List Nat
  ah : Nat
  deriving DecidableEq, Repr

/-- The growth step at the top of the table code in `isc___nmhandle_get`:
when `ah == ah_size`, double both arrays, initialising the new tail with
`ah_frees[i] = i` and `ah_handles[i] = NULL` for `i ∈ [ah_size,
2*ah_size)`. -/
def ah_grow (t : AHTable) : AHTable :=
  if t.ah = t.ah_size then
    { ah_size := t.ah_size * 2,
      ah_handles := t.ah_handles ++ List.replicate t.ah_size none,
      ah_frees := t.ah_frees ++ List.range' t.ah_size t.ah_size,
      ah := t.ah }
  else t

/-- The slot-claim step of `isc___nmhandle_get` (netmgr.c:1659-1686):
grow if full, then `handlenum = atomic_fetch_add(&sock->ah, 1)`,
`pos = sock->ah_frees[handlenum]`, and store the handle at `pos`.
Returns the updated table and the claimed slot `pos`. -/
def ah_claim (t : AHTable) (h : Nat) : AHTable × Nat :=
  let t1 := ah_grow t
  let pos := t1.ah_frees.getD t1.ah 0
  ({ t1 with
      ah := t1.ah + 1,
      ah_handles := t1.ah_handles.set pos (some h) }, pos)

/-- The slot-release step of `nmhandle_deactivate` (netmgr.c:1778-1781):
clear `ah_handles[pos]`, `handlenum = atomic_fetch_sub(&sock->ah, 1) - 1`,
and push `pos` at `ah_frees[handlenum]`, the new top of the free
stack. -/
def ah_release (t : AHTable) (pos : Nat) : AHTable :=
  { t with
    ah_handles := t.ah_handles.set pos none,
    ah := t.ah - 1,
    ah_frees := t.ah_frees.set (t.ah - 1) pos }

/-- The active-handle table invariant: both arrays have length
`ah_size > 0`; `ah ≤ ah_size` counts the claimed slots
(`ah_handles[i]` non-null); and `ah_frees[ah..ah_size)` is a
duplicate-free stack holding exactly the free slot indices. -/
structure AHInv (t : AHTable) : Prop where
  size_pos : 0 < t.ah_size
  hlen : t.ah_handles.length = t.ah_size
  flen : t.ah_frees.length = t.ah_size
  hle : t.ah ≤ t.ah_size
  count : t.ah_handles.countP (fun o => o.isSome) = t.ah
  mem : ∀ i, i ∈ t.ah_frees.drop t.ah ↔ t.ah_handles[i]? = some none
  nodup : (t.ah_frees.drop t.ah).Nodup

/-- The socket variants relevant to the `statichandle` assignment switch
in `isc___nmhandle_get`. -/
inductive SockType where
  | udpsocket
  | tcpsocket
  | tcpdnssocket
  | tlssocket
  | tlsdnssocket
  | httpsocket
  | udplistener
  | tcplistener
  | tcpdnslistener
  | tlsdnslistener
  deriving DecidableEq, Repr

/-- Whether `isc___nmhandle_get` assigns the fresh handle to
`sock->statichandle` for this socket: UDP / TCP-DNS / TLS-DNS sockets do
so when the socket is a client (the switch falls through), TCP and TLS
sockets always do. -/
def staticAssign (typ : SockType) (client : Bool) : Bool :=
  match typ with
  | .udpsocket | .tcpdnssocket | .tlsdnssocket => client
  | .tcpsocket | .tlssocket => true
  | _ => false

/-- A handle: its identity, its reference count, and its slot in the
owning socket's active-handle table. -/
structure GHandle where
  id : Nat
  refs : Nat
  ah_pos : Nat
  deriving DecidableEq, Repr

/-- The socket fields involved in handle creation and destruction: the
variant, the `client` flag, the socket reference count, the
active-handle table, the weak `statichandle` slot, the `active` flag and
whether a `closehandle_cb` is configured (for accepted stream sockets it
is `isc__nm_resume_processing`). -/
structure GSock where
  typ : SockType
  client : Bool
  refs : Nat
  table : AHTable
  statichandle : Option Nat
  active : Bool
  closehandle_set : Bool
  deriving DecidableEq, Repr

/-- Shallow embedding of `isc___nmhandle_get`: allocate (or reuse) a
handle with its reference count initialised to 1, attach a socket
reference, claim an active-handle slot, and — for client UDP/TCP-DNS/
TLS-DNS sockets and for TCP/TLS sockets — assign the handle to
`statichandle` WITHOUT touching the handle's reference count (plain
assignment, no attach).  `hid` is the fresh handle's identity. -/
def isc___nmhandle_get (s : GSock) (hid : Nat) : GSock × GHandle :=
  let s1 := { s with refs := s.refs + 1 }
  let claimed := ah_claim s1.table hid
  let s2 := { s1 with table := claimed.1 }
  let handle : GHandle := { id := hid, refs := 1, ah_pos := claimed.2 }
  if staticAssign s.typ s.client then
    ({ s2 with statichandle := some hid }, handle)
  else
    (s2, handle)

/-- Shallow embedding of `nmhandle_deactivate`: under the socket lock,
remove the handle from the active-handle table (clearing its slot and
pushing the slot index on the free stack); the handle is then either
cached on the inactive stack or freed, which does not affect the socket
fields modelled here. -/
def nmhandle_deactivate (s : GSock) (h : GHandle) : GSock :=
  { s with table := ah_release s.table h.ah_pos }

/-- The observable steps of `nmhandle_detach_cb` once the reference
count reaches zero, in program order. -/
inductive DetachStep where
  | deactivated
  | closehandleCalled
  | staticCleared
  | sockDetached
  deriving DecidableEq, Repr

/-- The part of `nmhandle_detach_cb` that runs before the final
`isc___nmsocket_detach`: deactivate the handle, invoke `closehandle_cb`
if configured, and clear `statichandle` when it points at this handle
(plain assignment back to NULL — "statichandle is assigned, not
attached").  Returns the socket state just before the socket reference
is released, with the step trace. -/
def nmhandle_detach_cb_pre (s : GSock) (h : GHandle) :
    GSock × List DetachStep :=
  let s1 := nmhandle_deactivate s h
  let steps1 := [DetachStep.deactivated]
  let steps2 := if s1.closehandle_set then [DetachStep.closehandleCalled]
    else []
  if s1.statichandle = some h.id then
    ({ s1 with statichandle := none },
     steps1 ++ steps2 ++ [DetachStep.staticCleared])
  else (s1, steps1 ++ steps2)

/-- Shallow embedding of `isc___nmsocket_detach` as it acts on the
reference count. -/
def nmsocket_detach (s : GSock) : GSock :=
  { s with refs := s.refs - 1 }

/-- Shallow embedding of `nmhandle_detach_cb`: decrement the handle's
reference count and stop if it stays positive; otherwise run the
pre-detach sequence (deactivate, `closehandle_cb`, clear
`statichandle`) and only then release the socket reference.  Returns
the final socket, the surviving handle if any, and the step trace. -/
def nmhandle_detach_cb (s : GSock) (h : GHandle) :
    GSock × Option GHandle × List DetachStep :=
  if h.refs > 1 then (s, some { h with refs := h.refs - 1 }, [])
  else
    let pre := nmhandle_detach_cb_pre s h
    (nmsocket_detach pre.1, none, pre.2 ++ [DetachStep.sockDetached])

/-! ## TLS-DNS engine: `tls_pop_error`, `tls_cycle`, `tls_error` and the
send path -/

/-- The TLS substate values `TLS_STATE_{NONE,HANDSHAKE,IO,ERROR}`. -/
inductive TlsState where
  | none
  | handshake
  | io
  | error
  deriving DecidableEq, Repr

/-- The TLS-capable socket fields the cycle pump and the send path
consult: the closing predicate (`isc__nmsocket_closing`, collapsed to one
flag), the TLS substate, the stored pending error code, the re-entrancy
flag `tls.cycle`, and whether `SSL_is_init_finished` holds. -/
structure TlsSock where
  closing : Bool
  state : TlsState
  pending_error : Result
  cycle : Bool
  handshake_done : Bool
  deriving DecidableEq, Repr

/-- Shallow embedding of `tls_pop_error`: outside the ERROR state return
SUCCESS; in the ERROR state return the stored pending error and clear it
to SUCCESS, or the generic TLSERROR when no pending error is stored. -/
def tls_pop_error (s : TlsSock) : Result × TlsSock :=
  if s.state ≠ TlsState.error then (.success, s)
  else if s.pending_error = .success then (.tlserror, s)
  else (s.pending_error, { s with pending_error := .success })

/-- Shallow embedding of `tls_cycle`, the re-entrancy-protected cycle
pump.  The I/O halves `tls_cycle_input` and `tls_cycle_output` (which
talk to the TLS engine and the TCP stream) are abstracted as the
parameters `cin` and `cout`; the pump itself checks the closing
predicate, pops any pending error, returns SUCCESS on re-entry, and
otherwise brackets one input and one output pass inside the `cycle`
flag. -/
def tls_cycle (cin cout : TlsSock → Result × TlsSock) (s : TlsSock) :
    Result × TlsSock :=
  if s.closing then (.canceled, s)
  else
    let r0 := tls_pop_error s
    if r0.1 ≠ .success then r0
    else if r0.2.cycle then (.success, r0.2)
    else
      let s2 := { r0.2 with cycle := true }
      let ri := cin s2
      if ri.1 ≠ .success then (ri.1, { ri.2 with cycle := false })
      else
        let ro := cout ri.2
        (ro.1, { ro.2 with cycle := false })

/-- Shallow embedding of `tls_error`: in the ERROR state it returns at
once, leaving the socket unchanged; otherwise (after firing the failed
connect/read callback, elided here) it records the result as the pending
error and enters the ERROR state. -/
def tls_error (s : TlsSock) (result : Result) : TlsSock :=
  match s.state with
  | .error => s
  | _ => { s with state := TlsState.error, pending_error := result }

/-- The request fields used by the TLS-DNS send path: the 2-byte
`tcplen` length-prefix field and the caller's payload region. -/
structure UvReq where
  tcplen : List Nat
  payload : List Nat
  deriving DecidableEq, Repr

/-- The two bytes `htons` stores in memory for a 16-bit value: most
significant byte first (network byte order); the `% 65536` is the
truncation of the argument to `uint16_t`. -/
def htons16 (n : Nat) : List Nat :=
  [n % 65536 / 256, n % 256]

/-- The request construction inside `isc__nm_tlsdns_send`: store
`htons(region->length)` into `req->tcplen` and point `req->uvbuf` at the
caller's region; the request is then posted to the owning worker as a
`tlsdnssend` event. -/
def isc__nm_tlsdns_send_req (region : List Nat) : UvReq :=
  { tcplen := htons16 region.length, payload := region }

/-- The possible outcomes of the `SSL_write_ex` call in
`tlsdns_send_direct`: it either accepts the full buffer (it never does
partial writes — the code INSISTs `sendlen == bytes`), or accepts
nothing and reports WANT_READ, WANT_WRITE, or a fatal error. -/
inductive SSLWriteOutcome where
  | accepted
  | wantRead
  | wantWrite
  | fatal
  deriving DecidableEq, Repr

/-- Observable actions of the send path: invoking the send completion
callback with SUCCESS (`isc__nm_sendcb`, carrying the bytes the engine
accepted), re-enqueuing the request as a fresh send event
(`tlsdns_send_enqueue`), and scheduling an asynchronous cycle. -/
inductive SendAction where
  | sendcbSuccess (bytes : List Nat)
  | requeue (req : UvReq)
  | asyncCycle
  deriving DecidableEq, Repr

/-- Shallow embedding of `tlsdns_send_direct`: pop any pending TLS
error; fail with CANCELED when closing; before the handshake has
finished, re-enqueue the request and return the popped result (SUCCESS);
otherwise assemble `tcplen ++ payload` in the worker's send buffer and
hand it to `SSL_write_ex`: on acceptance report send success and kick an
asynchronous cycle; on WANT_READ/WANT_WRITE run a cycle and re-enqueue;
on any other engine error return TLSERROR. -/
def tlsdns_send_direct (cin cout : TlsSock → Result × TlsSock)
    (ssl : SSLWriteOutcome) (s : TlsSock) (req : UvReq) :
    Result × TlsSock × List SendAction :=
  let r0 := tls_pop_error s
  if r0.1 ≠ .success then (r0.1, r0.2, [])
  else if r0.2.closing then (.canceled, r0.2, [])
  else if r0.2.handshake_done = false then (r0.1, r0.2, [.requeue req])
  else
    let sendbuf := req.tcplen ++ req.payload
    match ssl with
    | .accepted => (.success, r0.2, [.sendcbSuccess sendbuf, .asyncCycle])
    | .wantRead | .wantWrite =>
      let rc := tls_cycle cin cout r0.2
      (rc.1, rc.2, [.requeue req])
    | .fatal => (.tlserror, r0.2, [])

/-- Shallow embedding of `isc__nm_async_tlsdnssend`, the worker-side
handler of a `tlsdnssend` event: run `tlsdns_send_direct` and invoke the
failed-send callback exactly when it did not return SUCCESS.  The final
`Bool` records whether `isc__nm_failed_send_cb` was invoked. -/
def isc__nm_async_tlsdnssend (cin cout : TlsSock → Result × TlsSock)
    (ssl : SSLWriteOutcome) (s : TlsSock) (req : UvReq) :
    Result × TlsSock × List SendAction × Bool :=
  let r := tlsdns_send_direct cin cout ssl s req
  (r.1, r.2.1, r.2.2, decide (r.1 ≠ .success))

end Netmgr

namespace Netmgr

/-- The processed prefix and the remaining suffix of the loop in
`process_queue` partition the queue contents: only strictly dequeued
items are processed, in order. -/
theorem process_queue_loop_partition (l : List NEvent) (w : Nat) :
    (process_queue_loop l w).1 ++ (process_queue_loop l w).2.1 = l := by
  induction l generalizing w with
  | nil => rfl
  | cons ev rest ih =>
    by_cases hstop : process_netievent ev = false
    · simp [process_queue_loop, hstop]
    · by_cases hw : w = 0
      · simp [process_queue_loop, hstop, hw]
      · have hstep : process_queue_loop (ev :: rest) w =
            (ev :: (process_queue_loop rest (w - 1)).1,
             (process_queue_loop rest (w - 1)).2.1,
             (process_queue_loop rest (w - 1)).2.2) := by
          simp [process_queue_loop, hstop, hw]
        rw [hstep]
        simp only [List.cons_append, List.cons.injEq, true_and]
        exact ih (w - 1)

/-- One unfolding of the stream-processing loop when `processbuffer`
delivers a message: the timer is stopped, and the loop either stops
reading and returns or recurses, depending on the backpressure
condition. -/
theorem process_sock_buffer_success (cap : Int) (s s1 : DnsSock)
    (o l : Nat) (p : List Nat)
    (hpb : isc__nm_tlsdns_processbuffer s = (.success o l p, s1)) :
    isc__nm_process_sock_buffer cap s =
      if s.client || s.sequential || s.ah ≥ cap then
        (isc__nm_stop_reading (dnsTimerStop s1), [p])
      else
        ((isc__nm_process_sock_buffer cap (dnsTimerStop s1)).1,
         p :: (isc__nm_process_sock_buffer cap (dnsTimerStop s1)).2) := by
  conv_lhs => unfold isc__nm_process_sock_buffer
  split
  · rename_i heq
    rw [hpb] at heq
    simp at heq
  · rename_i heq
    rw [hpb] at heq
    simp at heq
  · rename_i o' l' p' s1' heq
    rw [hpb] at heq
    simp only [Prod.mk.injEq, PBOut.success.injEq] at heq
    obtain ⟨⟨ho, hl, hp⟩, hs⟩ := heq
    subst hp
    subst hs
    rfl

/-- One unfolding of the stream-processing loop when `processbuffer`
reports an incomplete message: reading is started and the timer is armed
when the active-handle count observed at entry was 1. -/
theorem process_sock_buffer_nomore (cap : Int) (s s1 : DnsSock)
    (hpb : isc__nm_tlsdns_processbuffer s = (.nomore, s1)) :
    isc__nm_process_sock_buffer cap s =
      if s.ah = 1 then (dnsTimerStart (isc__nm_start_reading s1), [])
      else (isc__nm_start_reading s1, []) := by
  conv_lhs => unfold isc__nm_process_sock_buffer
  split
  · rename_i s1' heq
    rw [hpb] at heq
    simp only [Prod.mk.injEq] at heq
    rw [heq.2]
  · rename_i heq
    rw [hpb] at heq
    simp at heq
  · rename_i o' l' p' s1' heq
    rw [hpb] at heq
    simp at heq

/-- One unfolding of the stream-processing loop when `processbuffer`
reports cancellation: the timer is stopped and reading stops. -/
theorem process_sock_buffer_canceled (cap : Int) (s s1 : DnsSock)
    (hpb : isc__nm_tlsdns_processbuffer s = (.canceled, s1)) :
    isc__nm_process_sock_buffer cap s =
      (isc__nm_stop_reading (dnsTimerStop s1), []) := by
  conv_lhs => unfold isc__nm_process_sock_buffer
  split
  · rename_i heq
    rw [hpb] at heq
    simp at heq
  · rename_i s1' heq
    rw [hpb] at heq
    simp only [Prod.mk.injEq] at heq
    rw [heq.2]
  · rename_i o' l' p' s1' heq
    rw [hpb] at heq
    simp at heq

/-- After `isc__nm_stop_reading` the socket is not reading. -/
theorem stop_reading_reading (u : DnsSock) :
    (isc__nm_stop_reading u).reading = false := by
  unfold isc__nm_stop_reading
  by_cases h : u.reading = true
  · rw [if_pos h]
  · rw [if_neg h]
    simpa using h

/-- A single `isc__nm_process_sock_buffer` call on a sequential socket
delivers at most one message, and stops reading whenever it delivered
one. -/
theorem process_sock_buffer_sequential (cap : Int) (t : DnsSock)
    (hseq : t.sequential = true) :
    (isc__nm_process_sock_buffer cap t).2.length ≤ 1 ∧
    ((isc__nm_process_sock_buffer cap t).2 ≠ [] →
      (isc__nm_process_sock_buffer cap t).1.reading = false) := by
  rcases hres : isc__nm_tlsdns_processbuffer t with ⟨res, t1⟩
  cases res with
  | nomore =>
    rw [process_sock_buffer_nomore cap t t1 hres]
    by_cases h1 : t.ah = 1 <;> simp [h1]
  | canceled =>
    rw [process_sock_buffer_canceled cap t t1 hres]
    simp [stop_reading_reading]
  | success o l p =>
    rw [process_sock_buffer_success cap t t1 o l p hres]
    simp [hseq, stop_reading_reading]

/-- C1: for a non-closing TLS-DNS socket, `isc__nm_tlsdns_processbuffer`
returns NOMORE iff `buf_len < 2` or `buf_len < 2 + ` the 16-bit
big-endian length in the first two bytes; otherwise it delivers exactly
those `len` payload bytes as the region at offset 2 inside the socket's
buffer and consumes exactly `2 + len` bytes, shifting the rest down. -/
theorem C1_processbuffer_framing (s : DnsSock) (hc : s.closing = false) :
    ((isc__nm_tlsdns_processbuffer s).1 = .nomore ↔
      (s.buf.length < 2 ∨ s.buf.length < 2 + beLen s.buf)) ∧
    (¬ (s.buf.length < 2 ∨ s.buf.length < 2 + beLen s.buf) →
      isc__nm_tlsdns_processbuffer s =
        (.success 2 (beLen s.buf) ((s.buf.drop 2).take (beLen s.buf)),
         { s with buf := s.buf.drop (2 + beLen s.buf), recv_read := false }) ∧
      ((s.buf.drop 2).take (beLen s.buf)).length = beLen s.buf ∧
      (s.buf.drop (2 + beLen s.buf)).length + (2 + beLen s.buf) =
        s.buf.length) := by
  constructor
  · unfold isc__nm_tlsdns_processbuffer
    simp only [hc, Bool.false_eq_true, if_false]
    by_cases h2 : s.buf.length < 2
    · simp [h2]
    · simp only [h2, if_false, false_or]
      by_cases h3 : beLen s.buf > s.buf.length - 2
      · simp only [h3, if_true]
        refine iff_of_true trivial ?_
        omega
      · simp only [h3, if_false]
        refine iff_of_false (by simp) ?_
        omega
  · intro h
    push_neg at h
    obtain ⟨h2, h3⟩ := h
    have hlen : ¬ beLen s.buf > s.buf.length - 2 := by omega
    refine ⟨?_, ?_, ?_⟩
    · unfold isc__nm_tlsdns_processbuffer
      simp [hc, Nat.not_lt.mpr h2, hlen]
    · rw [List.length_take, List.length_drop]
      omega
    · rw [List.length_drop]
      omega

/-- Witness for C1 at a concrete buffer `[0, 3, 10, 20, 30, 40]`: not
closing, length prefix 3, a complete message is present and consumed. -/
theorem C1_processbuffer_framing_witness :
    let s : DnsSock :=
      { closing := false, client := false, sequential := false, ah := 1,
        reading := true, timerArmed := false, recv_read := true,
        buf := [0, 3, 10, 20, 30, 40] }
    ((isc__nm_tlsdns_processbuffer s).1 = .nomore ↔
      (s.buf.length < 2 ∨ s.buf.length < 2 + beLen s.buf)) :=
  (C1_processbuffer_framing _ (by decide)).1

/-- C10: a set/get round trip through `isc_nm_settimeouts` and
`isc_nm_gettimeouts` returns exactly the four stored values for every
non-NULL output pointer, unmodified, and skips NULL pointers. -/
theorem C10_timeouts_roundtrip (m : NmMgr) (ini idl keep adv : Nat)
    (pInit pIdle pKeep pAdv : Bool) :
    isc_nm_gettimeouts (isc_nm_settimeouts m ini idl keep adv)
        pInit pIdle pKeep pAdv =
      (if pInit then some ini else none,
       if pIdle then some idl else none,
       if pKeep then some keep else none,
       if pAdv then some adv else none) := by
  rfl

/-- C2: under the documented counter guarantee (every queued item is
accounted for, so the depth counter at entry is at least the queue
length), a single `process_queue` invocation processes at most that
counter value, and processes only items it strictly dequeued: the
processed list is exactly the prefix of the queue that was removed, and
the remaining queue is the corresponding suffix. -/
theorem C2_process_queue_quota (q : EvQueue)
    (hinv : q.items.length ≤ q.nievents) :
    (process_queue q).1.length ≤ q.nievents ∧
    (process_queue q).1 ++ (process_queue q).2.1.items = q.items := by
  unfold process_queue
  match hq : q.items with
  | [] =>
    by_cases hw : q.nievents = 0 <;> simp [hw, hq]
  | ev :: rest =>
    simp only
    have hpart := process_queue_loop_partition (ev :: rest) q.nievents
    constructor
    · have : (process_queue_loop (ev :: rest) q.nievents).1.length ≤
          (ev :: rest).length := by
        calc (process_queue_loop (ev :: rest) q.nievents).1.length
            ≤ (process_queue_loop (ev :: rest) q.nievents).1.length +
              (process_queue_loop (ev :: rest) q.nievents).2.1.length := by
              omega
          _ = (ev :: rest).length := by
              rw [← List.length_append, hpart]
      rw [hq] at hinv
      omega
    · exact hpart

/-- Witness for C2 on a concrete queue of three events with depth
counter 3. -/
theorem C2_process_queue_quota_witness :
    let q : EvQueue := { items := [.normal 0, .normal 1, .normal 2],
                         nievents := 3 }
    (process_queue q).1.length ≤ q.nievents ∧
    (process_queue q).1 ++ (process_queue q).2.1.items = q.items :=
  C2_process_queue_quota _ (by decide)

/-- An index with a defined entry is within bounds. -/
theorem lt_length_of_getElem?_eq_some {α : Type} (l : List α) (i : Nat)
    (a : α) (h : l[i]? = some a) : i < l.length := by
  by_contra hc
  rw [List.getElem?_eq_none (by omega)] at h
  cases h

/-- Claiming a free slot increments the claimed-slot count of the
handle array. -/
theorem countP_set_some_of_none (l : List (Option Nat)) (i : Nat) (x : Nat)
    (hi : l[i]? = some none) :
    (l.set i (some x)).countP (fun o => o.isSome) =
      l.countP (fun o => o.isSome) + 1 := by
  induction l generalizing i with
  | nil => cases hi
  | cons a as ih =>
    cases i with
    | zero =>
      simp only [List.getElem?_cons_zero, Option.some.injEq] at hi
      subst hi
      simp [List.countP_cons]
    | succ n =>
      simp only [List.getElem?_cons_succ] at hi
      simp only [List.set_cons_succ, List.countP_cons]
      rw [ih n hi]
      omega

/-- Releasing a claimed slot decrements the claimed-slot count of the
handle array. -/
theorem countP_set_none_of_some (l : List (Option Nat)) (i : Nat) (x : Nat)
    (hi : l[i]? = some (some x)) :
    (l.set i none).countP (fun o => o.isSome) + 1 =
      l.countP (fun o => o.isSome) := by
  induction l generalizing i with
  | nil => cases hi
  | cons a as ih =>
    cases i with
    | zero =>
      simp only [List.getElem?_cons_zero, Option.some.injEq] at hi
      subst hi
      simp [List.countP_cons]
    | succ n =>
      simp only [List.getElem?_cons_succ] at hi
      simp only [List.set_cons_succ, List.countP_cons]
      rw [← ih n hi]
      omega

/-- Writing at index `i` does not change the list beyond index `i`. -/
theorem drop_set_succ (l : List Nat) (i : Nat) (x : Nat) :
    (l.set i x).drop (i + 1) = l.drop (i + 1) := by
  apply List.ext_getElem?_iff.mpr
  intro n
  rw [List.getElem?_drop, List.getElem?_drop]
  exact List.getElem?_set_ne (by omega)

/-- Writing at index `i` and dropping `i` elements yields the written
element consed on the untouched tail. -/
theorem drop_set_eq_cons (l : List Nat) (i : Nat) (x : Nat)
    (hi : i < l.length) :
    (l.set i x).drop i = x :: l.drop (i + 1) := by
  have h1 : i < (l.set i x).length := by simpa using hi
  rw [List.drop_eq_getElem_cons h1, drop_set_succ]
  congr 1
  simp

/-- `ah_grow` preserves the active-handle table invariant, leaves the
claimed count unchanged, and leaves the table non-full. -/
theorem ah_grow_inv (t : AHTable) (ht : AHInv t) :
    AHInv (ah_grow t) ∧ (ah_grow t).ah = t.ah ∧
    (ah_grow t).ah < (ah_grow t).ah_size := by
  unfold ah_grow
  by_cases hfull : t.ah = t.ah_size
  · rw [if_pos hfull]
    have hszpos := ht.size_pos
    have hflen := ht.flen
    have hhlen := ht.hlen
    have hdropfrees : t.ah_frees.drop t.ah = [] := by
      have : t.ah = t.ah_frees.length := by rw [hflen]; exact hfull
      rw [this, List.drop_length]
    have hnofree : ∀ i : Nat, ¬ t.ah_handles[i]? = some none := by
      intro i hi
      have := (ht.mem i).2 hi
      rw [hdropfrees] at this
      cases this
    have hdrop : (t.ah_frees ++ List.range' t.ah_size t.ah_size).drop t.ah =
        List.range' t.ah_size t.ah_size := by
      have h1 : t.ah = t.ah_frees.length := by rw [hflen]; exact hfull
      rw [h1, List.drop_left]
    refine ⟨⟨?_, ?_, ?_, ?_, ?_, ?_, ?_⟩, rfl, ?_⟩
    · simp only
      omega
    · simp only [List.length_append, List.length_replicate, hhlen]
      omega
    · simp only [List.length_append, List.length_range', hflen]
      omega
    · simp only
      omega
    · simp only [List.countP_append, ht.count]
      have : (List.replicate t.ah_size (none : Option Nat)).countP
          (fun o => o.isSome) = 0 := by
        simp [List.countP_replicate]
      rw [this]
      omega
    · intro i
      simp only [hdrop]
      constructor
      · intro hi
        obtain ⟨h1, h2⟩ := List.mem_range'_1.mp hi
        rw [List.getElem?_append_right (by omega : t.ah_handles.length ≤ i)]
        rw [List.getElem?_replicate_of_lt (by omega)]
      · intro hi
        by_cases hlow : i < t.ah_handles.length
        · rw [List.getElem?_append_left hlow] at hi
          exact absurd hi (hnofree i)
        · rw [List.getElem?_append_right (by omega)] at hi
          have hbound : i - t.ah_handles.length < t.ah_size := by
            by_contra hc
            rw [List.getElem?_eq_none (by simpa using (by omega :
              t.ah_size ≤ i - t.ah_handles.length))] at hi
            cases hi
          exact List.mem_range'_1.mpr ⟨by omega, by omega⟩
    · simp only [hdrop]
      exact List.nodup_range' t.ah_size t.ah_size 1 Nat.one_pos
    · simp only
      omega
  · rw [if_neg hfull]
    exact ⟨ht, rfl, lt_of_le_of_ne ht.hle hfull⟩

/-- The slot-claim step of `isc___nmhandle_get` preserves the table
invariant: the popped slot was free, it is stored with the new handle,
and the claimed count goes up by one. -/
theorem ah_claim_inv (t : AHTable) (z : Nat) (ht : AHInv t) :
    AHInv (ah_claim t z).1 ∧ (ah_claim t z).1.ah = t.ah + 1 ∧
    (ah_grow t).ah_handles[(ah_claim t z).2]? = some none ∧
    (ah_claim t z).1.ah_handles[(ah_claim t z).2]? = some (some z) := by
  obtain ⟨ht1, hah, hlt⟩ := ah_grow_inv t ht
  have hflen : (ah_grow t).ah < (ah_grow t).ah_frees.length := by
    rw [ht1.flen]; exact hlt
  have hdrop : (ah_grow t).ah_frees.drop (ah_grow t).ah =
      (ah_grow t).ah_frees.getD (ah_grow t).ah 0 ::
        (ah_grow t).ah_frees.drop ((ah_grow t).ah + 1) := by
    rw [List.drop_eq_getElem_cons hflen]
    congr 1
    exact (List.getD_eq_getElem _ 0 hflen).symm
  have hposmem : (ah_grow t).ah_frees.getD (ah_grow t).ah 0 ∈
      (ah_grow t).ah_frees.drop (ah_grow t).ah := by
    rw [hdrop]; exact List.mem_cons_self _ _
  have hfree : (ah_grow t).ah_handles[(ah_grow t).ah_frees.getD
      (ah_grow t).ah 0]? = some none := (ht1.mem _).1 hposmem
  have hposlt : (ah_grow t).ah_frees.getD (ah_grow t).ah 0 <
      (ah_grow t).ah_handles.length :=
    lt_length_of_getElem?_eq_some _ _ _ hfree
  have hnodup1 := ht1.nodup
  rw [hdrop] at hnodup1
  obtain ⟨hnotmem, hnodup2⟩ := List.nodup_cons.mp hnodup1
  refine ⟨⟨?_, ?_, ?_, ?_, ?_, ?_, ?_⟩, ?_, ?_, ?_⟩
  · exact ht1.size_pos
  · simp only [ah_claim, List.length_set]
    exact ht1.hlen
  · exact ht1.flen
  · simp only [ah_claim]
    omega
  · simp only [ah_claim]
    rw [countP_set_some_of_none _ _ _ hfree, ht1.count]
  · intro i
    simp only [ah_claim]
    constructor
    · intro hi
      have himem : i ∈ (ah_grow t).ah_frees.drop (ah_grow t).ah := by
        rw [hdrop]; exact List.mem_cons_of_mem _ hi
      have hine : i ≠ (ah_grow t).ah_frees.getD (ah_grow t).ah 0 := by
        intro heq
        rw [heq] at hi
        exact hnotmem hi
      rw [List.getElem?_set_ne (fun heq => hine heq.symm)]
      exact (ht1.mem i).1 himem
    · intro hi
      by_cases heq : i = (ah_grow t).ah_frees.getD (ah_grow t).ah 0
      · rw [heq, List.getElem?_set_eq (by simpa using hposlt)] at hi
        cases hi
      · rw [List.getElem?_set_ne (fun h => heq h.symm)] at hi
        have := (ht1.mem i).2 hi
        rw [hdrop] at this
        rcases List.mem_cons.mp this with h | h
        · exact absurd h heq
        · exact h
  · have := hnodup2
    simpa [ah_claim] using this
  · simp only [ah_claim]
    omega
  · exact hfree
  · simp only [ah_claim]
    rw [List.getElem?_set_eq (by simpa using hposlt)]

/-- The slot-release step of `nmhandle_deactivate` preserves the table
invariant: the released slot is cleared and pushed at the logical top of
the free stack, and the claimed count goes down by one. -/
theorem ah_release_inv (t : AHTable) (pos : Nat) (x : Nat) (ht : AHInv t)
    (hpos : t.ah_handles[pos]? = some (some x)) :
    AHInv (ah_release t pos) ∧ (ah_release t pos).ah = t.ah - 1 ∧
    1 ≤ t.ah ∧
    (ah_release t pos).ah_frees.drop (t.ah - 1) =
      pos :: t.ah_frees.drop t.ah := by
  have hposlt : pos < t.ah_handles.length :=
    lt_length_of_getElem?_eq_some _ _ _ hpos
  have hcount1 : 1 ≤ t.ah := by
    rw [← ht.count]
    have hmem : (some x) ∈ t.ah_handles := List.getElem?_mem hpos
    rw [Nat.succ_le_iff]
    exact List.countP_pos_iff.mpr ⟨some x, hmem, rfl⟩
  have hahflen : t.ah - 1 < t.ah_frees.length := by
    rw [ht.flen]
    have := ht.hle
    omega
  have hdropset : (t.ah_frees.set (t.ah - 1) pos).drop (t.ah - 1) =
      pos :: t.ah_frees.drop t.ah := by
    rw [drop_set_eq_cons _ _ _ hahflen]
    congr 1
    congr 1
    omega
  have hposnotfree : pos ∉ t.ah_frees.drop t.ah := by
    intro hmem
    have := (ht.mem pos).1 hmem
    rw [hpos] at this
    cases this
  refine ⟨⟨?_, ?_, ?_, ?_, ?_, ?_, ?_⟩, rfl, hcount1, hdropset⟩
  · exact ht.size_pos
  · simp only [ah_release, List.length_set]
    exact ht.hlen
  · simp only [ah_release, List.length_set]
    exact ht.flen
  · simp only [ah_release]
    have := ht.hle
    omega
  · simp only [ah_release]
    have h1 := countP_set_none_of_some _ _ _ hpos
    rw [ht.count] at h1
    omega
  · intro i
    simp only [ah_release, hdropset]
    constructor
    · intro hi
      rcases List.mem_cons.mp hi with h | h
      · subst h
        rw [List.getElem?_set_eq (by simpa using hposlt)]
      · have hne : i ≠ pos := by
          intro heq
          subst heq
          exact hposnotfree h
        rw [List.getElem?_set_ne (fun heq => hne heq.symm)]
        exact (ht.mem i).1 h
    · intro hi
      by_cases heq : i = pos
      · subst heq
        exact List.mem_cons_self _ _
      · rw [List.getElem?_set_ne (fun h => heq h.symm)] at hi
        exact List.mem_cons_of_mem _ ((ht.mem i).2 hi)
  · simp only [ah_release, hdropset]
    exact List.nodup_cons.mpr ⟨hposnotfree, ht.nodup⟩

/-- C6: the active-handle table invariant — `ah_handles[i]` non-null iff
slot `i` is claimed, `ah` equal to the number of claimed slots, and
`ah_frees[ah..ah_size)` a duplicate-free LIFO of exactly the free slot
indices — is preserved by every claim (`isc___nmhandle_get`) and release
(`nmhandle_deactivate`); a released slot index is pushed at the logical
top of the free stack and is the next one popped. -/
theorem C6_active_handle_table (t : AHTable) (pos x y : Nat)
    (ht : AHInv t) (hpos : t.ah_handles[pos]? = some (some x)) :
    (∀ (u : AHTable) (z : Nat), AHInv u →
      AHInv (ah_claim u z).1 ∧ (ah_claim u z).1.ah = u.ah + 1 ∧
      (ah_grow u).ah_handles[(ah_claim u z).2]? = some none ∧
      (ah_claim u z).1.ah_handles[(ah_claim u z).2]? = some (some z)) ∧
    (AHInv (ah_release t pos) ∧ (ah_release t pos).ah = t.ah - 1 ∧
      1 ≤ t.ah ∧
      (ah_release t pos).ah_frees.drop (t.ah - 1) =
        pos :: t.ah_frees.drop t.ah) ∧
    (ah_claim (ah_release t pos) y).2 = pos := by
  obtain ⟨hrel, hrelah, hone, hreldrop⟩ := ah_release_inv t pos x ht hpos
  refine ⟨fun u z hu => ah_claim_inv u z hu, ⟨hrel, hrelah, hone, hreldrop⟩,
    ?_⟩
  have hle := ht.hle
  have hnotfull : ¬ (ah_release t pos).ah = (ah_release t pos).ah_size := by
    have hsz : (ah_release t pos).ah_size = t.ah_size := rfl
    have hszpos := ht.size_pos
    rw [hrelah, hsz]
    omega
  have hgrow : ah_grow (ah_release t pos) = ah_release t pos := by
    unfold ah_grow
    rw [if_neg hnotfull]
  show (ah_grow (ah_release t pos)).ah_frees.getD
      (ah_grow (ah_release t pos)).ah 0 = pos
  rw [hgrow]
  have hlen : (ah_release t pos).ah < (ah_release t pos).ah_frees.length := by
    rw [hrel.flen, hrelah]
    have hsz : (ah_release t pos).ah_size = t.ah_size := rfl
    rw [hsz]
    have hszpos := ht.size_pos
    omega
  rw [List.getD_eq_getElem _ 0 hlen]
  simp [ah_release]

/-- Witness for C6 on a concrete two-slot table holding one handle. -/
theorem C6_active_handle_table_witness :
    let t : AHTable := { ah_size := 2, ah_handles := [some 7, none],
                         ah_frees := [0, 1], ah := 1 }
    (AHInv (ah_release t 0) ∧ (ah_release t 0).ah = t.ah - 1 ∧
      1 ≤ t.ah ∧
      (ah_release t 0).ah_frees.drop (t.ah - 1) =
        0 :: t.ah_frees.drop t.ah) ∧
    (ah_claim (ah_release t 0) 9).2 = 0 := by
  intro t
  have ht : AHInv t := by
    refine ⟨by decide, by decide, by decide, by decide, by decide, ?_,
      by decide⟩
    intro i
    match i with
    | 0 => decide
    | 1 => decide
    | (n + 2) =>
      simp only [List.drop, List.getElem?_cons_succ, List.getElem?_nil]
      constructor
      · intro hmem
        simp at hmem
      · intro hmem
        cases hmem
  have hpos : t.ah_handles[0]? = some (some 7) := rfl
  exact ⟨(C6_active_handle_table t 0 7 9 ht hpos).2.1,
    (C6_active_handle_table t 0 7 9 ht hpos).2.2⟩

/-- C5: `statichandle` is a weak, non-owning pointer: `isc___nmhandle_get`
returns the fresh handle with reference count exactly 1 (the caller's
reference) even when it assigns the handle to `statichandle`, and when
the handle's reference count reaches zero in `nmhandle_detach_cb`,
`statichandle` is cleared back to NULL strictly before the socket
reference is released. -/
theorem C5_statichandle_weak (s : GSock) (hid : Nat) (h : GHandle)
    (hassign : staticAssign s.typ s.client = true)
    (hrefs : h.refs = 1) (hstat : s.statichandle = some h.id) :
    ((isc___nmhandle_get s hid).2.refs = 1 ∧
     (isc___nmhandle_get s hid).1.statichandle = some hid) ∧
    (∀ (u : GSock) (v : Nat), (isc___nmhandle_get u v).2.refs = 1) ∧
    ((nmhandle_detach_cb s h).1.statichandle = none ∧
     (nmhandle_detach_cb s h).1.refs = s.refs - 1 ∧
     (nmhandle_detach_cb s h).1 =
       nmsocket_detach (nmhandle_detach_cb_pre s h).1 ∧
     (nmhandle_detach_cb_pre s h).1.statichandle = none) := by
  have hnottwo : ¬ h.refs > 1 := by omega
  have hs1static : (nmhandle_deactivate s h).statichandle = some h.id := by
    simp [nmhandle_deactivate, hstat]
  have hprestatic : (nmhandle_detach_cb_pre s h).1.statichandle = none := by
    unfold nmhandle_detach_cb_pre
    rw [if_pos hs1static]
  have hcb : nmhandle_detach_cb s h =
      (nmsocket_detach (nmhandle_detach_cb_pre s h).1, none,
       (nmhandle_detach_cb_pre s h).2 ++ [DetachStep.sockDetached]) := by
    unfold nmhandle_detach_cb
    rw [if_neg hnottwo]
  have hprerefs : (nmhandle_detach_cb_pre s h).1.refs = s.refs := by
    unfold nmhandle_detach_cb_pre
    rw [if_pos hs1static]
    rfl
  refine ⟨⟨?_, ?_⟩, ?_, ?_, ?_, ?_, hprestatic⟩
  · unfold isc___nmhandle_get
    rw [if_pos hassign]
  · unfold isc___nmhandle_get
    rw [if_pos hassign]
  · intro u v
    unfold isc___nmhandle_get
    by_cases hc : staticAssign u.typ u.client = true
    · rw [if_pos hc]
    · rw [if_neg hc]
  · rw [hcb]
    simp [nmsocket_detach, hprestatic]
  · rw [hcb]
    simp [nmsocket_detach, hprerefs]
  · rw [hcb]

/-- Witness for C5 on a concrete client TLS-DNS socket whose static
handle (id 5, one reference) is being detached. -/
theorem C5_statichandle_weak_witness :
    let t : AHTable := { ah_size := 2, ah_handles := [some 5, none],
                         ah_frees := [0, 1], ah := 1 }
    let s : GSock := { typ := .tlsdnssocket, client := true, refs := 2,
                       table := t, statichandle := some 5, active := true,
                       closehandle_set := false }
    let h : GHandle := { id := 5, refs := 1, ah_pos := 0 }
    ((isc___nmhandle_get s 6).2.refs = 1 ∧
     (isc___nmhandle_get s 6).1.statichandle = some 6) ∧
    (∀ (u : GSock) (v : Nat), (isc___nmhandle_get u v).2.refs = 1) ∧
    ((nmhandle_detach_cb s h).1.statichandle = none ∧
     (nmhandle_detach_cb s h).1.refs = s.refs - 1 ∧
     (nmhandle_detach_cb s h).1 =
       nmsocket_detach (nmhandle_detach_cb_pre s h).1 ∧
     (nmhandle_detach_cb_pre s h).1.statichandle = none) :=
  C5_statichandle_weak _ _ _ (by decide) rfl rfl

/-- C8 counterexample: the claim says arming via
`isc__nmsocket_timer_start` when the timer is already armed restarts it.
On a non-connecting socket with `read_timeout = 100` whose timer is
armed with 5 ms remaining, `isc__nmsocket_timer_start` leaves the timer
at 5 ms (early return), whereas a restart would re-arm it at 100 ms; the
two operations differ. -/
theorem C8_timer_start_counterexample :
    let s : TimerSock := { connecting := false, connect_timeout := 0,
                           read_timeout := 100, timer := some 5 }
    isc__nmsocket_timer_running s = true ∧
    (isc__nmsocket_timer_start s).timer = some 5 ∧
    (isc__nmsocket_timer_restart s).timer = some 100 ∧
    isc__nmsocket_timer_start s ≠ isc__nmsocket_timer_restart s := by
  refine ⟨rfl, rfl, rfl, ?_⟩
  decide

/-- C8 (amended): arming via `isc__nmsocket_timer_start` when the timer
is already armed is a no-op that leaves the socket unchanged (the
unconditional re-arm is `isc__nmsocket_timer_restart`, which
`timer_start` invokes only when no timer is armed), and disarming via
`isc__nmsocket_timer_stop` when no timer is armed is a no-op that leaves
the socket state unchanged. -/
theorem C8_timer_idempotence (s : TimerSock) :
    (isc__nmsocket_timer_running s = true →
      isc__nmsocket_timer_start s = s) ∧
    (isc__nmsocket_timer_running s = false →
      isc__nmsocket_timer_start s = isc__nmsocket_timer_restart s) ∧
    (isc__nmsocket_timer_running s = false →
      isc__nmsocket_timer_stop s = s) := by
  refine ⟨?_, ?_, ?_⟩
  · intro h
    simp [isc__nmsocket_timer_start, h]
  · intro h
    simp [isc__nmsocket_timer_start, h]
  · intro h
    have hnone : s.timer = none := by
      cases htimer : s.timer
      · rfl
      · simp [isc__nmsocket_timer_running, htimer] at h
    cases s
    simp_all [isc__nmsocket_timer_stop, uv_timer_stop]

/-- Witness for C8 (amended) on a concrete disarmed socket. -/
theorem C8_timer_idempotence_witness :
    let s : TimerSock := { connecting := false, connect_timeout := 0,
                           read_timeout := 100, timer := none }
    isc__nmsocket_timer_running s = false ∧ isc__nmsocket_timer_stop s = s :=
  ⟨by decide, (C8_timer_idempotence _).2.2 (by decide)⟩

/-- C7 counterexample: the claim says that once the TLS state is ERROR,
further cycles return the stored pending code once and then stop
producing that code.  With stored pending code TLSERROR (as stored by
`tls_error` when `tls_cycle_input` hits a fatal engine error), the first
cycle returns TLSERROR and clears the slot, but the second cycle returns
TLSERROR again (`tls_pop_error` maps an empty slot in the ERROR state to
the generic TLSERROR), so the stored code is produced on every
subsequent cycle, not once. -/
theorem C7_error_once_counterexample :
    let s : TlsSock := { closing := false, state := TlsState.error,
                         pending_error := .tlserror, cycle := false,
                         handshake_done := true }
    let cid : TlsSock → Result × TlsSock := fun t => (.success, t)
    (tls_cycle cid cid s).1 = .tlserror ∧
    (tls_cycle cid cid s).2.pending_error = .success ∧
    (tls_cycle cid cid (tls_cycle cid cid s).2).1 = .tlserror :=
  ⟨rfl, rfl, rfl⟩

/-- C7 (amended): for a non-closing TLS-DNS socket in the ERROR state the
state is terminal — `tls_pop_error`, `tls_cycle` (for every behaviour of
the abstracted input/output halves) and `tls_error` all leave the state
at ERROR, and `tls_error` leaves the socket entirely unchanged — and the
first `tls_cycle` after the error returns the stored pending code and
clears it, while every subsequent cycle returns the generic TLSERROR
code (so a stored code other than TLSERROR is produced exactly once). -/
theorem C7_error_state_terminal (cin cout : TlsSock → Result × TlsSock)
    (s : TlsSock) (hs : s.state = TlsState.error) (hc : s.closing = false) :
    (tls_pop_error s).2.state = TlsState.error ∧
    (tls_cycle cin cout s).2.state = TlsState.error ∧
    (∀ r, tls_error s r = s) ∧
    (s.pending_error ≠ .success →
      tls_cycle cin cout s =
        (s.pending_error, { s with pending_error := .success })) ∧
    (s.pending_error = .success → tls_cycle cin cout s = (.tlserror, s)) ∧
    (tls_cycle cin cout (tls_cycle cin cout s).2).1 = .tlserror := by
  have hpop : (tls_pop_error s).2.state = TlsState.error := by
    unfold tls_pop_error
    by_cases hp : s.pending_error = .success <;> simp [hs, hp]
  have hcyc : ∀ t : TlsSock, t.state = TlsState.error → t.closing = false →
      tls_cycle cin cout t =
        (if t.pending_error = .success then (.tlserror, t)
         else (t.pending_error, { t with pending_error := .success })) := by
    intro t ht htc
    unfold tls_cycle tls_pop_error
    by_cases hp : t.pending_error = .success
    · simp [ht, htc, hp]
    · simp [ht, htc, hp]
  refine ⟨hpop, ?_, ?_, ?_, ?_, ?_⟩
  · rw [hcyc s hs hc]
    by_cases hp : s.pending_error = .success <;> simp [hp, hs]
  · intro r
    unfold tls_error
    rw [hs]
  · intro hp
    rw [hcyc s hs hc]
    simp [hp]
  · intro hp
    rw [hcyc s hs hc]
    simp [hp]
  · rw [hcyc s hs hc]
    by_cases hp : s.pending_error = .success
    · simp only [hp, if_true]
      rw [hcyc s hs hc]
      simp [hp]
    · simp only [hp, if_false]
      rw [hcyc { s with pending_error := .success } (by simpa using hs)
            (by simpa using hc)]
      simp

/-- Witness for C7 (amended) at a concrete errored socket whose stored
pending code is EOF. -/
theorem C7_error_state_terminal_witness :
    let s : TlsSock := { closing := false, state := TlsState.error,
                         pending_error := .eof, cycle := false,
                         handshake_done := true }
    let cid : TlsSock → Result × TlsSock := fun t => (.success, t)
    (tls_pop_error s).2.state = TlsState.error ∧
    (tls_cycle cid cid s).2.state = TlsState.error ∧
    (∀ r, tls_error s r = s) ∧
    (s.pending_error ≠ .success →
      tls_cycle cid cid s =
        (s.pending_error, { s with pending_error := .success })) ∧
    (s.pending_error = .success → tls_cycle cid cid s = (.tlserror, s)) ∧
    (tls_cycle cid cid (tls_cycle cid cid s).2).1 = .tlserror :=
  C7_error_state_terminal _ _ _ rfl rfl

/-- C4: for every TLS-DNS send of a region of length `L < 65536`, the
write path prepends the 2-byte big-endian encoding of `L`, so the TLS
engine is handed exactly `L + 2` bytes; the send completion callback is
invoked with SUCCESS exactly when `SSL_write_ex` accepts the full
buffer (it is never partial), and when it accepts nothing no success is
reported for that attempt. -/
theorem C4_send_framing (cin cout : TlsSock → Result × TlsSock)
    (ssl : SSLWriteOutcome) (s : TlsSock) (region : List Nat)
    (hlen : region.length < 65536) :
    ((isc__nm_tlsdns_send_req region).tcplen ++
        (isc__nm_tlsdns_send_req region).payload =
      region.length / 256 :: region.length % 256 :: region) ∧
    (((isc__nm_tlsdns_send_req region).tcplen ++
        (isc__nm_tlsdns_send_req region).payload).length =
      region.length + 2) ∧
    (∀ b, SendAction.sendcbSuccess b ∈
        (tlsdns_send_direct cin cout ssl s
          (isc__nm_tlsdns_send_req region)).2.2 →
      ssl = .accepted ∧
      b = region.length / 256 :: region.length % 256 :: region) ∧
    (ssl ≠ .accepted →
      ∀ b, SendAction.sendcbSuccess b ∉
        (tlsdns_send_direct cin cout ssl s
          (isc__nm_tlsdns_send_req region)).2.2) := by
  have hbuf : (isc__nm_tlsdns_send_req region).tcplen ++
      (isc__nm_tlsdns_send_req region).payload =
      region.length / 256 :: region.length % 256 :: region := by
    unfold isc__nm_tlsdns_send_req htons16
    simp only [List.cons_append, List.nil_append, List.cons.injEq, and_true]
    rw [Nat.mod_eq_of_lt hlen]
  have hmem : ∀ b, SendAction.sendcbSuccess b ∈
      (tlsdns_send_direct cin cout ssl s
        (isc__nm_tlsdns_send_req region)).2.2 →
      ssl = .accepted ∧
      b = region.length / 256 :: region.length % 256 :: region := by
    intro b hb
    unfold tlsdns_send_direct at hb
    by_cases h0 : (tls_pop_error s).1 = .success
    · simp only [h0, ne_eq, not_true_eq_false, if_false] at hb
      by_cases h1 : (tls_pop_error s).2.closing
      · simp [h1] at hb
      · simp only [h1, Bool.false_eq_true, if_false] at hb
        by_cases h2 : (tls_pop_error s).2.handshake_done = false
        · simp [h2] at hb
        · simp only [h2, if_false] at hb
          cases ssl with
          | accepted =>
            simp at hb
            refine ⟨rfl, ?_⟩
            rw [← hbuf]
            exact hb
          | wantRead => simp at hb
          | wantWrite => simp at hb
          | fatal => simp at hb
    · simp [h0] at hb
  refine ⟨hbuf, ?_, hmem, ?_⟩
  · rw [hbuf]
    simp
  · intro hssl b hb
    exact absurd (hmem b hb).1 hssl

/-- Witness for C4 at a concrete 3-byte region with the engine accepting
the write. -/
theorem C4_send_framing_witness :
    let cid : TlsSock → Result × TlsSock := fun t => (.success, t)
    let s : TlsSock := { closing := false, state := TlsState.io,
                         pending_error := .success, cycle := false,
                         handshake_done := true }
    let region : List Nat := [10, 20, 30]
    ((isc__nm_tlsdns_send_req region).tcplen ++
        (isc__nm_tlsdns_send_req region).payload =
      region.length / 256 :: region.length % 256 :: region) ∧
    (((isc__nm_tlsdns_send_req region).tcplen ++
        (isc__nm_tlsdns_send_req region).payload).length =
      region.length + 2) ∧
    (∀ b, SendAction.sendcbSuccess b ∈
        (tlsdns_send_direct cid cid .accepted s
          (isc__nm_tlsdns_send_req region)).2.2 →
      SSLWriteOutcome.accepted = .accepted ∧
      b = region.length / 256 :: region.length % 256 :: region) ∧
    (SSLWriteOutcome.accepted ≠ .accepted →
      ∀ b, SendAction.sendcbSuccess b ∉
        (tlsdns_send_direct cid cid .accepted s
          (isc__nm_tlsdns_send_req region)).2.2) :=
  C4_send_framing _ _ _ _ _ (by decide)

/-- C9: a TLS-DNS send executed on the owning worker while the handshake
is not yet finished, on a socket that is neither closing nor in the TLS
ERROR state, is re-enqueued as a new send event rather than failed:
`tlsdns_send_direct` returns SUCCESS with the request re-enqueued and no
callback action, and the caller `isc__nm_async_tlsdnssend` does not
invoke the failed-send callback. -/
theorem C9_send_requeued_during_handshake
    (cin cout : TlsSock → Result × TlsSock) (ssl : SSLWriteOutcome)
    (s : TlsSock) (req : UvReq) (hc : s.closing = false)
    (hs : s.state ≠ TlsState.error) (hh : s.handshake_done = false) :
    tlsdns_send_direct cin cout ssl s req =
      (.success, s, [.requeue req]) ∧
    (isc__nm_async_tlsdnssend cin cout ssl s req).2.2.2 = false := by
  have hpop : tls_pop_error s = (.success, s) := by
    unfold tls_pop_error
    simp [hs]
  have hdirect : tlsdns_send_direct cin cout ssl s req =
      (.success, s, [.requeue req]) := by
    unfold tlsdns_send_direct
    rw [hpop]
    simp [hc, hh]
  refine ⟨hdirect, ?_⟩
  unfold isc__nm_async_tlsdnssend
  rw [hdirect]
  simp

/-- C3: after `processbuffer` delivers one complete DNS message, the
stream-processing loop continues to the next message only if the socket
is not a client, is not in sequential mode, and the active-handle count
observed at iteration entry is below the per-connection ceiling;
otherwise it stops reading.  With `sequential` set, at most one message
is dispatched per invocation, and reading stops whenever a message was
dispatched; processing is resumed through the socket's `closehandle_cb`
(`isc__nm_resume_processing`, invoked from `nmhandle_detach_cb` when the
in-flight handle's reference count reaches zero), which re-enters
`isc__nm_process_sock_buffer` unless the socket is closing. -/
theorem C3_sequential_backpressure (cap : Int) (s s1 : DnsSock)
    (o l : Nat) (p : List Nat)
    (hpb : isc__nm_tlsdns_processbuffer s = (.success o l p, s1)) :
    (s.client = false → s.sequential = false → s.ah < cap →
      isc__nm_process_sock_buffer cap s =
        ((isc__nm_process_sock_buffer cap (dnsTimerStop s1)).1,
         p :: (isc__nm_process_sock_buffer cap (dnsTimerStop s1)).2)) ∧
    (s.client = true ∨ s.sequential = true ∨ s.ah ≥ cap →
      isc__nm_process_sock_buffer cap s =
        (isc__nm_stop_reading (dnsTimerStop s1), [p]) ∧
      (isc__nm_process_sock_buffer cap s).1.reading = false) ∧
    (∀ t : DnsSock, t.sequential = true →
      (isc__nm_process_sock_buffer cap t).2.length ≤ 1 ∧
      ((isc__nm_process_sock_buffer cap t).2 ≠ [] →
        (isc__nm_process_sock_buffer cap t).1.reading = false)) ∧
    (∀ t : DnsSock, t.closing = false →
      isc__nm_resume_processing cap t = isc__nm_process_sock_buffer cap t) ∧
    (∀ (g : GSock) (gh : GHandle), gh.refs = 1 → g.closehandle_set = true →
      DetachStep.closehandleCalled ∈ (nmhandle_detach_cb g gh).2.2) := by
  refine ⟨?_, ?_, ?_, ?_, ?_⟩
  · intro hclient hseq hah
    rw [process_sock_buffer_success cap s s1 o l p hpb]
    have hnot : ¬ (s.ah ≥ cap) := not_le.mpr hah
    simp [hclient, hseq, hnot]
  · intro hcond
    have hbool : (s.client || s.sequential || decide (s.ah ≥ cap)) = true := by
      rcases hcond with h | h | h <;> simp [h]
    rw [process_sock_buffer_success cap s s1 o l p hpb]
    constructor
    · simp only [hbool, if_true]
    · simp only [hbool, if_true, stop_reading_reading]
  · exact fun t hseq => process_sock_buffer_sequential cap t hseq
  · intro t hclosing
    unfold isc__nm_resume_processing
    rw [hclosing]
    simp
  · intro g gh hr hset
    have hnottwo : ¬ gh.refs > 1 := by omega
    unfold nmhandle_detach_cb
    rw [if_neg hnottwo]
    simp only
    unfold nmhandle_detach_cb_pre
    have hchs : (nmhandle_deactivate g gh).closehandle_set = true := hset
    by_cases hst : (nmhandle_deactivate g gh).statichandle = some gh.id
    · rw [if_pos hst]
      simp [hchs]
    · rw [if_neg hst]
      simp [hchs]

/-- Witness for C3 at a concrete sequential server socket whose buffer
holds one complete 1-byte message. -/
theorem C3_sequential_backpressure_witness :
    let s : DnsSock :=
      { closing := false, client := false, sequential := true, ah := 1,
        reading := true, timerArmed := false, recv_read := true,
        buf := [0, 1, 99] }
    let s1 : DnsSock := { s with buf := [], recv_read := false }
    (s.client = true ∨ s.sequential = true ∨ s.ah ≥ 23 →
      isc__nm_process_sock_buffer 23 s =
        (isc__nm_stop_reading (dnsTimerStop s1), [[99]]) ∧
      (isc__nm_process_sock_buffer 23 s).1.reading = false) ∧
    (∀ t : DnsSock, t.sequential = true →
      (isc__nm_process_sock_buffer 23 t).2.length ≤ 1 ∧
      ((isc__nm_process_sock_buffer 23 t).2 ≠ [] →
        (isc__nm_process_sock_buffer 23 t).1.reading = false)) := by
  intro s s1
  have hpb : isc__nm_tlsdns_processbuffer s = (.success 2 1 [99], s1) := by
    decide
  exact ⟨(C3_sequential_backpressure 23 s s1 2 1 [99] hpb).2.1,
    (C3_sequential_backpressure 23 s s1 2 1 [99] hpb).2.2.1⟩

/-- Witness for C9 on a concrete mid-handshake socket. -/
theorem C9_send_requeued_during_handshake_witness :
    let cid : TlsSock → Result × TlsSock := fun t => (.success, t)
    let s : TlsSock := { closing := false, state := TlsState.handshake,
                         pending_error := .success, cycle := false,
                         handshake_done := false }
    let req : UvReq := { tcplen := [0, 3], payload := [10, 20, 30] }
    tlsdns_send_direct cid cid .wantRead s req =
      (.success, s, [.requeue req]) ∧
    (isc__nm_async_tlsdnssend cid cid .wantRead s req).2.2.2 = false :=
  C9_send_requeued_during_handshake _ _ _ _ _ rfl (by decide) rfl

end Netmgr
